import Mathlib

/-!
Verification of the proxy.py HTTP core against its specification.

This file gives a shallow embedding of the components of the proxy.py
repository that the claims of the specification are about: the incremental
HTTP/1.x request parser, the embedded web server plugin (PAC route,
static route, registered routes, default 404), the upstream connection
pool, and the protocol handler lifecycle.  The repository snapshot under
verification ships the package re-export modules and the web-server test
suite; the bodies of `HttpParser`, `HttpWebServerPlugin`,
`ConnectionPool` and `HttpProtocolHandler` are not part of the snapshot,
so each of those components is modelled from the specification text (and
where the test suite pins a behaviour, from the test suite), as noted in
the doc comment of each definition.

Bytes are modelled as `Nat` (ASCII codes); byte strings as `List Nat`.
-/

namespace ProxyPy

/-- The ASCII bytes of a string literal. -/
def bytesOf (s : String) : List Nat := s.toList.map Char.toNat

/-- Lowercase one ASCII byte. -/
def lowerByte (b : Nat) : Nat := if 65 ≤ b ∧ b ≤ 90 then b + 32 else b

/-- Case-insensitive normalisation of a header name. -/
def lowerBytes (bs : List Nat) : List Nat := bs.map lowerByte

/-! ## The incremental HTTP request parser (spec §4.1, §3 "HTTP message")

Modelled from the spec: the `proxy/http/parser.py` module of the repository
(`HttpParser`, `httpParserStates`) is not under the source
tree — only its import in the web-server test is.  The model follows
spec §3 and §4.1: a byte buffer plus a parser state that advances
through INITIALIZED → LINE_RCVD → RCVING_HEADERS → HEADERS_COMPLETE →
RCVING_BODY → COMPLETE, line framing by CRLF with lone LF accepted,
leading whitespace-only lines ignored, headers until a blank line with
obs-fold joining, body framed by chunked transfer-encoding (which wins)
or by Content-Length, and a MALFORMED failure state on bad syntax.
The request-target is kept as its raw bytes (the URL of the message). -/

/-- Parser states of spec §3 plus the MALFORMED failure of §4.1. -/
inductive ParserState where
  | INITIALIZED
  | LINE_RCVD
  | RCVING_HEADERS
  | HEADERS_COMPLETE
  | RCVING_BODY
  | COMPLETE
  | MALFORMED
deriving DecidableEq, Repr

/-- Body framing, decided at the blank line ending the headers. -/
inductive BodyMode where
  | noBody
  | fixedLength (n : Nat)
  | chunked
deriving DecidableEq, Repr

/-- Sub-state of the chunked-body parser (spec §4.1 chunk framing). -/
inductive ChunkPhase where
  | size
  | data (remaining : Nat)
  | dataCRLF
  | trailer
deriving DecidableEq, Repr

/-- The parsed-message part of the parser: everything except the byte
buffer of not-yet-consumed input. -/
structure Core where
  state : ParserState
  method : List Nat
  url : List Nat
  version : List Nat
  headers : List (List Nat × List Nat)
  body : List Nat
  bodyMode : BodyMode
  chunkPhase : ChunkPhase
deriving DecidableEq, Repr

/-- The incremental parser: parsed message plus unconsumed buffer. -/
structure HttpParser where
  core : Core
  buffer : List Nat
deriving DecidableEq, Repr

/-- A freshly initialised request parser. -/
def initialCore : Core :=
  ⟨ParserState.INITIALIZED, [], [], [], [], [], BodyMode.noBody, ChunkPhase.size⟩

/-- What kind of input the parser consumes next. -/
inductive Mode where
  | halt
  | line
  | byte
deriving DecidableEq, Repr

/-- Whether the parser next consumes a line, a body byte, or nothing
(COMPLETE: further bytes belong to the next message; MALFORMED: dead). -/
def Core.mode (c : Core) : Mode :=
  match c.state with
  | ParserState.COMPLETE => Mode.halt
  | ParserState.MALFORMED => Mode.halt
  | ParserState.INITIALIZED => Mode.line
  | ParserState.LINE_RCVD => Mode.line
  | ParserState.RCVING_HEADERS => Mode.line
  | ParserState.HEADERS_COMPLETE =>
    match c.bodyMode with
    | BodyMode.fixedLength _ => Mode.byte
    | BodyMode.chunked =>
      match c.chunkPhase with
      | ChunkPhase.data _ => Mode.byte
      | _ => Mode.line
    | BodyMode.noBody => Mode.halt
  | ParserState.RCVING_BODY =>
    match c.bodyMode with
    | BodyMode.fixedLength _ => Mode.byte
    | BodyMode.chunked =>
      match c.chunkPhase with
      | ChunkPhase.data _ => Mode.byte
      | _ => Mode.line
    | BodyMode.noBody => Mode.halt

/-- Split the buffer at the first LF: the bytes before it and the rest
after it.  `none` when no complete line is buffered yet. -/
def splitAtLF : List Nat → Option (List Nat × List Nat)
  | [] => none
  | b :: rest =>
    if b = 10 then some ([], rest)
    else
      match splitAtLF rest with
      | some (l, r) => some (b :: l, r)
      | none => none

/-- Strip one trailing CR: CRLF framing with lone LF accepted. -/
def stripCR (l : List Nat) : List Nat :=
  if l.getLast? = some 13 then l.dropLast else l

/-- Bytes that count as whitespace in header values and padding lines. -/
def isWS (b : Nat) : Bool := b = 32 || b = 9 || b = 13 || b = 10

/-- Trim leading and trailing whitespace of a header value. -/
def trimBytes (bs : List Nat) : List Nat :=
  ((bs.dropWhile isWS).reverse.dropWhile isWS).reverse

/-- Split a line at every SP, for the three start-line tokens. -/
def splitSP : List Nat → List (List Nat)
  | [] => [[]]
  | b :: rest =>
    if b = 32 then [] :: splitSP rest
    else
      match splitSP rest with
      | [] => [[b]]
      | w :: ws => (b :: w) :: ws

/-- Split a header line at the first colon into name and value. -/
def splitColon : List Nat → Option (List Nat × List Nat)
  | [] => none
  | b :: rest =>
    if b = 58 then some ([], rest)
    else
      match splitColon rest with
      | some (n, v) => some (b :: n, v)
      | none => none

/-- Value of a hex digit byte, if it is one. -/
def hexDigit (b : Nat) : Option Nat :=
  if 48 ≤ b ∧ b ≤ 57 then some (b - 48)
  else if 97 ≤ b ∧ b ≤ 102 then some (b - 87)
  else if 65 ≤ b ∧ b ≤ 70 then some (b - 55)
  else none

/-- Parse a chunk-size line: hex digits (chunk extensions after the
digits are ignored, but the line must start with a digit). -/
def parseHex (bs : List Nat) (acc : Nat) (seen : Bool) : Option Nat :=
  match bs with
  | [] => if seen then some acc else none
  | b :: rest =>
    match hexDigit b with
    | some d => parseHex rest (acc * 16 + d) true
    | none => if seen then some acc else none

/-- Parse a decimal Content-Length value. -/
def parseDec (bs : List Nat) (acc : Nat) (seen : Bool) : Option Nat :=
  match bs with
  | [] => if seen then some acc else none
  | b :: rest =>
    if 48 ≤ b ∧ b ≤ 57 then parseDec rest (acc * 10 + (b - 48)) true
    else none

/-- First header value for a (case-insensitively compared) name. -/
def findHeader (hs : List (List Nat × List Nat)) (name : List Nat) : Option (List Nat) :=
  match hs with
  | [] => none
  | (n, v) :: rest =>
    if lowerBytes n = name then some v else findHeader rest name

/-- Whether `needle` occurs at the start of `hay`. -/
def isPreOf : List Nat → List Nat → Bool
  | [], _ => true
  | _ :: _, [] => false
  | a :: as, b :: bs => a = b && isPreOf as bs

/-- Whether `needle` occurs anywhere inside `hay`. -/
def isInfOf (needle : List Nat) : List Nat → Bool
  | [] => isPreOf needle []
  | b :: bs => isPreOf needle (b :: bs) || isInfOf needle bs

/-- Whether a Transfer-Encoding value contains the token `chunked`. -/
def mentionsChunked (v : List Nat) : Bool :=
  isInfOf (bytesOf "chunked") (lowerBytes v)

/-- Framing choice of spec §4.1 step 3, made at the blank line:
chunked wins over Content-Length; a request with neither has no body. -/
def chooseFraming (c : Core) : Core :=
  match findHeader c.headers (bytesOf "transfer-encoding") with
  | some v =>
    if mentionsChunked v then
      { c with state := ParserState.HEADERS_COMPLETE,
               bodyMode := BodyMode.chunked, chunkPhase := ChunkPhase.size }
    else chooseFramingCL c
  | none => chooseFramingCL c
where
  chooseFramingCL (c : Core) : Core :=
    match findHeader c.headers (bytesOf "content-length") with
    | some v =>
      match parseDec (trimBytes v) 0 false with
      | some 0 => { c with state := ParserState.COMPLETE }
      | some (n + 1) =>
        { c with state := ParserState.HEADERS_COMPLETE,
                 bodyMode := BodyMode.fixedLength (n + 1) }
      | none => { c with state := ParserState.MALFORMED }
    | none => { c with state := ParserState.COMPLETE }

/-- Append an obs-folded continuation to the value of the last header with a
single joining space (spec §4.1 step 2). -/
def obsFold (hs : List (List Nat × List Nat)) (l : List Nat) : List (List Nat × List Nat) :=
  match hs.getLast? with
  | some (n, v) => hs.dropLast ++ [(n, v ++ [32] ++ trimBytes l)]
  | none => hs

/-- Consume one complete line (already CR-stripped) in a line-mode
state.  This is where all HTTP-specific line logic lives. -/
def applyLine (c : Core) (l : List Nat) : Core :=
  match c.state with
  | ParserState.INITIALIZED =>
    if l.all isWS then c
    else
      match splitSP l with
      | [m, t, v] =>
        { c with state := ParserState.LINE_RCVD,
                 method := m, url := t, version := trimBytes v }
      | _ => { c with state := ParserState.MALFORMED }
  | ParserState.LINE_RCVD => applyHeaderLine c l
  | ParserState.RCVING_HEADERS => applyHeaderLine c l
  | _ => applyChunkLine c l
where
  applyHeaderLine (c : Core) (l : List Nat) : Core :=
    if l = [] then chooseFraming c
    else if l.head? = some 32 ∨ l.head? = some 9 then
      if c.headers = [] then { c with state := ParserState.MALFORMED }
      else { c with state := ParserState.RCVING_HEADERS, headers := obsFold c.headers l }
    else
      match splitColon l with
      | some (n, v) =>
        { c with state := ParserState.RCVING_HEADERS,
                 headers := c.headers ++ [(n, trimBytes v)] }
      | none => { c with state := ParserState.MALFORMED }
  applyChunkLine (c : Core) (l : List Nat) : Core :=
    match c.chunkPhase with
    | ChunkPhase.size =>
      match parseHex l 0 false with
      | some 0 => { c with chunkPhase := ChunkPhase.trailer }
      | some (n + 1) =>
        { c with state := ParserState.RCVING_BODY,
                 chunkPhase := ChunkPhase.data (n + 1) }
      | none => { c with state := ParserState.MALFORMED }
    | ChunkPhase.dataCRLF =>
      if l = [] then { c with chunkPhase := ChunkPhase.size }
      else { c with state := ParserState.MALFORMED }
    | ChunkPhase.trailer =>
      if l = [] then { c with state := ParserState.COMPLETE } else c
    | ChunkPhase.data _ => c

/-- Consume one body byte in a byte-mode state. -/
def applyByte (c : Core) (b : Nat) : Core :=
  match c.bodyMode with
  | BodyMode.fixedLength n =>
    let body := c.body ++ [b]
    if n ≤ body.length then
      { c with state := ParserState.COMPLETE, body := body }
    else
      { c with state := ParserState.RCVING_BODY, body := body }
  | BodyMode.chunked =>
    match c.chunkPhase with
    | ChunkPhase.data r =>
      let body := c.body ++ [b]
      if r ≤ 1 then
        { c with state := ParserState.RCVING_BODY, body := body,
                 chunkPhase := ChunkPhase.dataCRLF }
      else
        { c with state := ParserState.RCVING_BODY, body := body,
                 chunkPhase := ChunkPhase.data (r - 1) }
    | _ => c
  | BodyMode.noBody => c

/-- The line-mode step: consume one complete line when one is buffered. -/
def stepLine (c : Core) : Option (List Nat × List Nat) → Option HttpParser
  | none => none
  | some (l, r) => some ⟨applyLine c (stripCR l), r⟩

/-- The byte-mode step: consume one buffered body byte. -/
def stepByte (c : Core) : List Nat → Option HttpParser
  | [] => none
  | b :: r => some ⟨applyByte c b, r⟩

/-- One parsing step: consume one complete line or one body byte from
the buffer, or report that nothing can be consumed yet. -/
def step (p : HttpParser) : Option HttpParser :=
  match p.core.mode with
  | Mode.halt => none
  | Mode.line => stepLine p.core (splitAtLF p.buffer)
  | Mode.byte => stepByte p.core p.buffer

theorem splitAtLF_length {b : List Nat} {l r : List Nat}
    (h : splitAtLF b = some (l, r)) : r.length < b.length := by
  induction b generalizing l r with
  | nil => simp [splitAtLF] at h
  | cons x rest ih =>
    simp only [splitAtLF] at h
    by_cases hx : x = 10
    · simp [hx] at h
      simp [← h.2]
    · simp [hx] at h
      cases hr : splitAtLF rest with
      | none => rw [hr] at h; simp at h
      | some lr =>
        rw [hr] at h
        cases lr with
        | mk l0 r0 =>
          simp at h
          have := ih (l := l0) (r := r0) hr
          simp [← h.2]
          omega

theorem splitAtLF_append {b e : List Nat} {l r : List Nat}
    (h : splitAtLF b = some (l, r)) : splitAtLF (b ++ e) = some (l, r ++ e) := by
  induction b generalizing l r with
  | nil => simp [splitAtLF] at h
  | cons x rest ih =>
    simp only [splitAtLF] at h ⊢
    by_cases hx : x = 10
    · simp [hx] at h ⊢
      exact ⟨h.1, by rw [← h.2]⟩
    · simp [hx] at h ⊢
      cases hr : splitAtLF rest with
      | none => rw [hr] at h; simp at h
      | some lr =>
        rw [hr] at h
        cases lr with
        | mk l0 r0 =>
          simp at h
          rw [ih (l := l0) (r := r0) hr]
          simp [← h.1, ← h.2]

theorem step_mode_halt {p : HttpParser} (hm : p.core.mode = Mode.halt) :
    step p = none := by
  unfold step; rw [hm]

theorem step_mode_line {p : HttpParser} (hm : p.core.mode = Mode.line) :
    step p = stepLine p.core (splitAtLF p.buffer) := by
  unfold step; rw [hm]

theorem step_mode_byte {p : HttpParser} (hm : p.core.mode = Mode.byte) :
    step p = stepByte p.core p.buffer := by
  unfold step; rw [hm]

theorem step_buffer_length {p p' : HttpParser} (h : step p = some p') :
    p'.buffer.length < p.buffer.length := by
  cases hm : p.core.mode with
  | halt => rw [step_mode_halt hm] at h; exact absurd h (by simp)
  | line =>
    rw [step_mode_line hm] at h
    cases hs : splitAtLF p.buffer with
    | none => rw [hs] at h; exact absurd h (by simp [stepLine])
    | some lr =>
      obtain ⟨l, r⟩ := lr
      rw [hs] at h
      simp [stepLine] at h
      rw [← h]
      exact splitAtLF_length hs
  | byte =>
    rw [step_mode_byte hm] at h
    cases hb : p.buffer with
    | nil => rw [hb] at h; exact absurd h (by simp [stepByte])
    | cons b r =>
      rw [hb] at h
      simp [stepByte] at h
      rw [← h]
      simp

theorem step_empty {p : HttpParser} (h : p.buffer = []) : step p = none := by
  cases hm : p.core.mode with
  | halt => exact step_mode_halt hm
  | line => rw [step_mode_line hm, h]; rfl
  | byte => rw [step_mode_byte hm, h]; rfl

/-- Extend the unconsumed buffer with newly received bytes. -/
def extendBuf (p : HttpParser) (bs : List Nat) : HttpParser :=
  ⟨p.core, p.buffer ++ bs⟩

theorem extendBuf_core (p : HttpParser) (e : List Nat) :
    (extendBuf p e).core = p.core := rfl

theorem extendBuf_buffer (p : HttpParser) (e : List Nat) :
    (extendBuf p e).buffer = p.buffer ++ e := rfl

theorem step_extend {p p' : HttpParser} (e : List Nat) (h : step p = some p') :
    step (extendBuf p e) = some (extendBuf p' e) := by
  cases hm : p.core.mode with
  | halt => rw [step_mode_halt hm] at h; exact absurd h (by simp)
  | line =>
    rw [step_mode_line hm] at h
    have hm' : (extendBuf p e).core.mode = Mode.line := hm
    rw [step_mode_line hm', extendBuf_core, extendBuf_buffer]
    cases hs : splitAtLF p.buffer with
    | none => rw [hs] at h; exact absurd h (by simp [stepLine])
    | some lr =>
      obtain ⟨l, r⟩ := lr
      rw [hs] at h
      simp [stepLine] at h
      rw [splitAtLF_append hs]
      simp [stepLine, ← h, extendBuf]
  | byte =>
    rw [step_mode_byte hm] at h
    have hm' : (extendBuf p e).core.mode = Mode.byte := hm
    rw [step_mode_byte hm', extendBuf_core, extendBuf_buffer]
    cases hb : p.buffer with
    | nil => rw [hb] at h; exact absurd h (by simp [stepByte])
    | cons b r =>
      rw [hb] at h
      simp [stepByte] at h
      simp [hb, stepByte, ← h, extendBuf]

/-- Bounded iteration of `step`: every step consumes at least one
buffered byte, so the buffer length is enough fuel. -/
def processFuel : Nat → HttpParser → HttpParser
  | 0, p => p
  | n + 1, p =>
    match step p with
    | none => p
    | some p' => processFuel n p'

/-- Run the parser to quiescence: consume lines and body bytes until no
complete unit remains in the buffer. -/
def process (p : HttpParser) : HttpParser := processFuel p.buffer.length p

theorem processFuel_of_none {p : HttpParser} (h : step p = none) :
    ∀ n, processFuel n p = p
  | 0 => rfl
  | n + 1 => by
    show (match step p with | none => p | some p' => processFuel n p') = p
    rw [h]

theorem processFuel_succ {p p' : HttpParser} (h : step p = some p') (n : Nat) :
    processFuel (n + 1) p = processFuel n p' := by
  show (match step p with | none => p | some p' => processFuel n p') = processFuel n p'
  rw [h]

theorem processFuel_adequate (n : Nat) :
    ∀ p : HttpParser, p.buffer.length ≤ n → processFuel n p = process p := by
  induction n using Nat.strong_induction_on with
  | _ n ih =>
    intro p hp
    cases hs : step p with
    | none => rw [processFuel_of_none hs, process, processFuel_of_none hs]
    | some p' =>
      have hlt := step_buffer_length hs
      cases hn : n with
      | zero => omega
      | succ m =>
        subst hn
        rw [processFuel_succ hs]
        have h1 : processFuel m p' = process p' := ih m (by omega) p' (by omega)
        cases hl : p.buffer.length with
        | zero => omega
        | succ k =>
          have h2 : process p = processFuel k p' := by
            rw [process, hl, processFuel_succ hs]
          have h3 : processFuel k p' = process p' := by
            rw [hl] at hp
            exact ih k (by omega) p' (by omega)
          rw [h1, h2, h3]

theorem process_none {p : HttpParser} (h : step p = none) : process p = p := by
  rw [process, processFuel_of_none h]

theorem process_some {p p' : HttpParser} (h : step p = some p') :
    process p = process p' := by
  have hlt := step_buffer_length h
  cases hl : p.buffer.length with
  | zero => omega
  | succ k =>
    rw [process, hl, processFuel_succ h]
    exact processFuel_adequate k p' (by omega)

theorem step_process (p : HttpParser) : step (process p) = none := by
  cases hs : step p with
  | none => rw [process_none hs]; exact hs
  | some p' => rw [process_some hs]; exact step_process p'
termination_by p.buffer.length
decreasing_by exact step_buffer_length hs

/-- Feed newly received bytes to the parser: append to the buffer and
process as far as possible.  This is the model of `HttpParser.parse`. -/
def HttpParser.parse (p : HttpParser) (bs : List Nat) : HttpParser :=
  process (extendBuf p bs)

/-- Feed a list of byte chunks one after the other. -/
def feedAll (p : HttpParser) (parts : List (List Nat)) : HttpParser :=
  parts.foldl HttpParser.parse p

/-- A fresh request parser with an empty buffer. -/
def initialParser : HttpParser := ⟨initialCore, []⟩

/-- Confluence of processing with buffer extension: processing, then
receiving more bytes and processing again, equals receiving everything
first and processing once. -/
theorem process_extend_process (e : List Nat) (q : HttpParser) :
    process (extendBuf (process q) e) = process (extendBuf q e) := by
  cases hs : step q with
  | none => rw [process_none hs]
  | some q' =>
    rw [process_some hs, process_extend_process e q', process_some (step_extend e hs)]
termination_by q.buffer.length
decreasing_by exact step_buffer_length hs

theorem extendBuf_nil (p : HttpParser) : extendBuf p [] = p := by
  cases p with
  | mk c b => simp [extendBuf]

theorem extendBuf_append (p : HttpParser) (a b : List Nat) :
    extendBuf (extendBuf p a) b = extendBuf p (a ++ b) := by
  cases p with
  | mk c buf => simp [extendBuf]

theorem feedAll_flatten (parts : List (List Nat)) (q : HttpParser) :
    feedAll (process q) parts = process (extendBuf q parts.flatten) := by
  induction parts generalizing q with
  | nil =>
    simp [feedAll, extendBuf_nil]
  | cons s rest ih =>
    show feedAll ((process q).parse s) rest = _
    unfold HttpParser.parse
    rw [process_extend_process s q]
    have := ih (extendBuf q s)
    unfold feedAll at this ⊢
    rw [this]
    rw [extendBuf_append]
    simp

theorem process_initial : process initialParser = initialParser :=
  process_none (step_empty rfl)

/-- C1: Incremental parsing.  For every request byte sequence and every
partition of it into consecutive parts, feeding the parts to the HTTP
request parser in order yields exactly the same final parsed message
and parser state (indeed, the same parser) as feeding the whole
sequence in a single `parse` call; and feeding an empty byte string to
the resulting parser leaves message and state unchanged. -/
theorem parse_incremental (parts : List (List Nat)) :
    feedAll initialParser parts = initialParser.parse parts.flatten ∧
    (feedAll initialParser parts).parse [] = feedAll initialParser parts := by
  have h1 : feedAll initialParser parts = initialParser.parse parts.flatten := by
    conv_lhs => rw [← process_initial]
    rw [feedAll_flatten]
    rfl
  refine ⟨h1, ?_⟩
  have h2 : feedAll initialParser parts = process (extendBuf initialParser parts.flatten) := by
    conv_lhs => rw [← process_initial]
    exact feedAll_flatten parts initialParser
  rw [h2]
  unfold HttpParser.parse
  rw [extendBuf_nil]
  exact process_none (step_process _)

/-! ## The web server plugin (spec §4.7)

Modelled from the spec: the `proxy/http/server/web.py` module of the repository
(`HttpWebServerPlugin`, `HttpWebServerPacFilePlugin`) and
`proxy/common/utils.py` (`build_http_response`) are not under the
source tree of the snapshot — only their imports and assertions in the
web-server test are.  The model follows spec §4.7: route by path
through (1) the PAC route, (2) the static route with `..` rejection and
directory-index expansion, (3) registered route plugins matched by
declared prefix, (4) the default 404; the static response carries
content-type inferred from the extension, `Cache-Control: max-age=86400`,
`Connection: close` and `Content-Length` equal to the encoded body
length.  The web-server test (`test_static_web_server_serves`) pins the
gzip behaviour: the request it builds carries no Accept-Encoding header
and the asserted response still has `content-encoding: gzip`, so the
model encodes the static body unconditionally. -/

/-- A parsed request as the web plugin sees it. -/
structure Request where
  method : List Nat
  path : List Nat
  headers : List (List Nat × List Nat)
deriving DecidableEq, Repr

/-- The request held by a parser, as handed to the plugin. -/
def reqOf (p : HttpParser) : Request :=
  ⟨p.core.method, p.core.url, p.core.headers⟩

/-- A structured HTTP response. -/
structure Response where
  code : Nat
  reason : List Nat
  headers : List (List Nat × List Nat)
  body : Option (List Nat)
deriving DecidableEq, Repr

/-- Case-insensitive response-header lookup (the test suite reads
headers back through the lowercasing lookup of the response parser). -/
def Response.header (r : Response) (name : List Nat) : Option (List Nat) :=
  findHeader r.headers (lowerBytes name)

/-- Decimal ASCII digits of a number (the `bytes_(len(...))` of the
test suite). -/
def natBytes (n : Nat) : List Nat := bytesOf (toString n)

/-- CRLF. -/
def crlfBytes : List Nat := [13, 10]

/-- Serialise one header line. -/
def emitHeader (h : List Nat × List Nat) : List Nat :=
  h.1 ++ [58, 32] ++ h.2 ++ crlfBytes

/-- Serialise a response to wire bytes: status line, header lines,
blank line, body. -/
def emitResponse (r : Response) : List Nat :=
  bytesOf "HTTP/1.1 " ++ natBytes r.code ++ [32] ++ r.reason ++ crlfBytes
    ++ (r.headers.map emitHeader).flatten ++ crlfBytes
    ++ r.body.getD []

/-- Modelled from the spec: the `gzip.compress` encoding applied to
static bodies (the Python `gzip` module is outside the snapshot).  The
model is an abstract invertible encoding — the two gzip magic bytes
followed by the payload — whose only properties the claims use are
that it has a well-defined output length and that decompression
inverts compression. -/
def gzipCompress (bs : List Nat) : List Nat := 31 :: 139 :: bs

/-- Inverse of the modelled gzip encoding. -/
def gzipDecompress (bs : List Nat) : List Nat := bs.drop 2

/-- The web-server configuration the routing consults: an optional
inline PAC document, the static-serving switch, and the
symlink-canonicalised static root as path segments. -/
structure WebFlags where
  pacFile : Option (List Nat)
  staticEnabled : Bool
  staticDir : List (List Nat)
deriving DecidableEq, Repr

/-- The file system visible beneath the static root: regular files
keyed by absolute path segments. -/
def FileSystem : Type := List (List (List Nat) × List Nat)

/-- Look a regular file up by its resolved path. -/
def fsLookup (fs : FileSystem) (p : List (List Nat)) : Option (List Nat) :=
  match fs with
  | [] => none
  | (q, c) :: rest => if q = p then some c else fsLookup rest p

/-- Split a path at every `/`. -/
def splitSlash : List Nat → List (List Nat)
  | [] => [[]]
  | b :: rest =>
    if b = 47 then [] :: splitSlash rest
    else
      match splitSlash rest with
      | [] => [[b]]
      | w :: ws => (b :: w) :: ws

/-- Drop the query string: everything from the first `?`. -/
def stripQuery (p : List Nat) : List Nat := p.takeWhile (fun b => b ≠ 63)

/-- Path segments of a request path (leading `/` produces no segment). -/
def reqSegs (p : List Nat) : List (List Nat) :=
  let segs := splitSlash (stripQuery p)
  if segs.head? = some [] then segs.tail else segs

/-- Directory-index expansion: a trailing `/` (or the bare root) is
expanded to `index.html`. -/
def expandIndex (segs : List (List Nat)) : List (List Nat) :=
  match segs.getLast? with
  | none => [bytesOf "index.html"]
  | some [] => segs.dropLast ++ [bytesOf "index.html"]
  | some _ => segs

/-- Whether a `..` segment occurs. -/
def hasDotDot (segs : List (List Nat)) : Bool :=
  segs.any (fun s => s = bytesOf "..")

/-- Resolve a request path beneath the static root: `..` rejection,
directory-index expansion, then concatenation onto the root. -/
def resolveStatic (root : List (List Nat)) (path : List Nat) : Option (List (List Nat)) :=
  let segs := expandIndex (reqSegs path)
  if hasDotDot segs then none else some (root ++ segs)

/-- The regular file (resolved path and contents) the static route
serves for a request path, if any. -/
def staticLookup (root : List (List Nat)) (fs : FileSystem) (path : List Nat) :
    Option (List (List Nat) × List Nat) :=
  match resolveStatic root path with
  | none => none
  | some rp =>
    match fsLookup fs rp with
    | some c => some (rp, c)
    | none => none

/-- Whether `suffix` ends `bs`. -/
def endsWithBytes (suffix bs : List Nat) : Bool :=
  isPreOf suffix.reverse bs.reverse

/-- Content type inferred from the file extension (spec §4.7: inferred
from extension; `text/html` for `.html`, plain text otherwise). -/
def contentTypeOf (filename : List Nat) : List Nat :=
  if endsWithBytes (bytesOf ".html") filename then bytesOf "text/html"
  else bytesOf "text/plain"

/-- Whether the client advertised `gzip` in Accept-Encoding. -/
def advertisesGzip (req : Request) : Bool :=
  match findHeader req.headers (bytesOf "accept-encoding") with
  | some v => isInfOf (bytesOf "gzip") (lowerBytes v)
  | none => false

/-- The PAC response of spec §4.7 route 1. -/
def pacResponse (pac : List Nat) : Response :=
  ⟨200, bytesOf "OK",
   [(bytesOf "Content-Type", bytesOf "application/x-ns-proxy-autoconfig"),
    (bytesOf "Connection", bytesOf "close")],
   some pac⟩

/-- The 200 response of the static route (spec §4.7 route 2). -/
def okFileResponse (rp : List (List Nat)) (contents : List Nat) : Response :=
  ⟨200, bytesOf "OK",
   [(bytesOf "Content-Type", contentTypeOf (rp.getLast?.getD [])),
    (bytesOf "Cache-Control", bytesOf "max-age=86400"),
    (bytesOf "Content-Encoding", bytesOf "gzip"),
    (bytesOf "Connection", bytesOf "close"),
    (bytesOf "Content-Length", natBytes (gzipCompress contents).length)],
   some (gzipCompress contents)⟩

/-- The fixed default 404 (spec §4.7 route 4): minimal, with
`Connection: close`. -/
def default404Response : Response :=
  ⟨404, bytesOf "NOT FOUND", [(bytesOf "Connection", bytesOf "close")], none⟩

/-- The constant `HttpWebServerPlugin.DEFAULT_404_RESPONSE`: the wire bytes
of the default 404. -/
def DEFAULT_404_RESPONSE : List Nat := emitResponse default404Response

/-- Registered route plugins: declared path prefixes with the response
each produces. -/
def RouteTable : Type := List (List Nat × Response)

/-- First registered route whose declared prefix matches the path. -/
def matchRoute (routes : RouteTable) (path : List Nat) : Option Response :=
  match routes with
  | [] => none
  | (pat, resp) :: rest =>
    if isPreOf pat path then some resp else matchRoute rest path

/-- Spec §4.7 routes 3 and 4: registered routes, else the default 404. -/
def routeOr404 (routes : RouteTable) (req : Request) : Response :=
  match matchRoute routes req.path with
  | some r => r
  | none => default404Response

/-- Spec §4.7 route 2 then fall-through: the static route when enabled
and resolving to a regular file, else routes 3 and 4. -/
def handleWebStatic (flags : WebFlags) (fs : FileSystem) (routes : RouteTable)
    (req : Request) : Response :=
  if flags.staticEnabled then
    match staticLookup flags.staticDir fs req.path with
    | some (rp, c) => okFileResponse rp c
    | none => routeOr404 routes req
  else routeOr404 routes req

/-- The routing of the web server plugin (spec §4.7): PAC route first, then
static, then registered routes, then the default 404. -/
def handleWeb (flags : WebFlags) (fs : FileSystem) (routes : RouteTable)
    (req : Request) : Response :=
  match flags.pacFile with
  | some pac =>
    if req.path = bytesOf "/" then pacResponse pac
    else handleWebStatic flags fs routes req
  | none => handleWebStatic flags fs routes req

/-! ### Path canonicalisation (for the path-safety claim) -/

/-- One step of segment canonicalisation: `..` pops, `.` is dropped. -/
def canonStep (acc : List (List Nat)) (seg : List Nat) : List (List Nat) :=
  if seg = bytesOf ".." then acc.dropLast
  else if seg = bytesOf "." then acc
  else acc ++ [seg]

/-- Canonicalise a segment path, resolving `.` and `..`. -/
def canonSegs (p : List (List Nat)) : List (List Nat) := p.foldl canonStep []

/-- A path free of `.` and `..` segments (a canonical root). -/
def noDots (segs : List (List Nat)) : Bool :=
  segs.all (fun s => s ≠ bytesOf ".." ∧ s ≠ bytesOf ".")

theorem foldl_canonStep_keeps (segs : List (List Nat))
    (h : hasDotDot segs = false) :
    ∀ acc : List (List Nat), acc <+: segs.foldl canonStep acc := by
  induction segs with
  | nil => intro acc; exact List.prefix_refl acc
  | cons s rest ih =>
    intro acc
    simp [hasDotDot] at h
    obtain ⟨hs, hrest⟩ := h
    have hrest' : hasDotDot rest = false := by
      simp [hasDotDot]
      exact hrest
    have h1 : acc <+: canonStep acc s := by
      unfold canonStep
      rw [if_neg hs]
      by_cases hdot : s = bytesOf "."
      · rw [if_pos hdot]
      · rw [if_neg hdot]
        exact List.prefix_append acc [s]
    exact h1.trans (ih hrest' (canonStep acc s))

theorem foldl_canonStep_clean (segs : List (List Nat)) (h : noDots segs = true) :
    ∀ acc : List (List Nat), segs.foldl canonStep acc = acc ++ segs := by
  induction segs with
  | nil => intro acc; simp
  | cons s rest ih =>
    intro acc
    simp [noDots] at h
    obtain ⟨⟨hs2, hs1⟩, hrest⟩ := h
    have hrest' : noDots rest = true := by
      simp [noDots]
      intro x hx
      exact ⟨(hrest x hx).1, (hrest x hx).2⟩
    show List.foldl canonStep (canonStep acc s) rest = acc ++ s :: rest
    rw [ih hrest']
    unfold canonStep
    rw [if_neg hs2, if_neg hs1]
    simp

/-! ### Claim theorems for the web server routes -/

/-- C3: Default 404.  A request whose path matches no PAC route (none
configured), no static file (static serving disabled) and no registered
route plugin is answered with the default 404 of the web server plugin; in
particular this holds for a parsed `GET /hello HTTP/1.1` request, and
the constant 404 wire bytes begin with the status line
`HTTP/1.1 404 NOT FOUND` and carry a `Connection: close` header. -/
theorem default_web_server_returns_404 (fs : FileSystem) (req : Request) :
    handleWeb ⟨none, false, []⟩ fs [] req = default404Response ∧
    emitResponse
        (handleWeb ⟨none, false, []⟩ fs []
          (reqOf (initialParser.parse (bytesOf "GET /hello HTTP/1.1\r\n\r\n")))) =
      DEFAULT_404_RESPONSE ∧
    isPreOf (bytesOf "HTTP/1.1 404 NOT FOUND\r\n") DEFAULT_404_RESPONSE = true ∧
    isInfOf (crlfBytes ++ bytesOf "Connection: close" ++ crlfBytes)
        DEFAULT_404_RESPONSE = true := by
  refine ⟨rfl, rfl, by decide, by decide⟩

/-- C5: PAC served from an inline buffer.  With a PAC document
configured as an inline string, a parsed `GET / HTTP/1.1` request is
answered with `Content-Type: application/x-ns-proxy-autoconfig`,
`Connection: close`, and a body equal to the configured string byte for
byte. -/
theorem pac_file_served_from_buffer (pac : List Nat) (fs : FileSystem)
    (routes : RouteTable) :
    (handleWeb ⟨some pac, false, []⟩ fs routes
        (reqOf (initialParser.parse (bytesOf "GET / HTTP/1.1\r\n\r\n")))).header
        (bytesOf "content-type") =
      some (bytesOf "application/x-ns-proxy-autoconfig") ∧
    (handleWeb ⟨some pac, false, []⟩ fs routes
        (reqOf (initialParser.parse (bytesOf "GET / HTTP/1.1\r\n\r\n")))).header
        (bytesOf "connection") = some (bytesOf "close") ∧
    (handleWeb ⟨some pac, false, []⟩ fs routes
        (reqOf (initialParser.parse (bytesOf "GET / HTTP/1.1\r\n\r\n")))).body =
      some pac :=
  ⟨rfl, rfl, rfl⟩

/-- C2: Static file serving.  Whenever the static route resolves a
request path to a regular file beneath the root, the response is 200
with content-type inferred from the file extension (`text/html` for
`.html`), `cache-control: max-age=86400`, `connection: close`, a
`content-length` equal to the byte length of the encoded body, and a
body that — in particular when the client advertised `gzip` in
Accept-Encoding, so that gzip encoding was applied — gunzips back to
the exact file contents. -/
theorem static_web_server_serves (root : List (List Nat)) (fs : FileSystem)
    (routes : RouteTable) (req : Request) (rp : List (List Nat))
    (contents : List Nat)
    (hlook : staticLookup root fs req.path = some (rp, contents)) :
    (handleWeb ⟨none, true, root⟩ fs routes req).code = 200 ∧
    (handleWeb ⟨none, true, root⟩ fs routes req).header (bytesOf "content-type") =
      some (contentTypeOf (rp.getLast?.getD [])) ∧
    (endsWithBytes (bytesOf ".html") (rp.getLast?.getD []) = true →
      (handleWeb ⟨none, true, root⟩ fs routes req).header (bytesOf "content-type") =
        some (bytesOf "text/html")) ∧
    (handleWeb ⟨none, true, root⟩ fs routes req).header (bytesOf "cache-control") =
      some (bytesOf "max-age=86400") ∧
    (handleWeb ⟨none, true, root⟩ fs routes req).header (bytesOf "connection") =
      some (bytesOf "close") ∧
    (handleWeb ⟨none, true, root⟩ fs routes req).header (bytesOf "content-length") =
      some (natBytes (((handleWeb ⟨none, true, root⟩ fs routes req).body.getD []).length)) ∧
    (advertisesGzip req = true →
      gzipDecompress ((handleWeb ⟨none, true, root⟩ fs routes req).body.getD []) =
        contents) := by
  have hw : handleWeb ⟨none, true, root⟩ fs routes req = okFileResponse rp contents := by
    unfold handleWeb handleWebStatic
    simp [hlook]
  rw [hw]
  refine ⟨rfl, rfl, ?_, rfl, rfl, rfl, fun _ => rfl⟩
  intro h
  show some (contentTypeOf (rp.getLast?.getD [])) = _
  unfold contentTypeOf
  rw [h]
  simp

/-- Demo fixture: a static root. -/
def demoRoot : List (List Nat) := [bytesOf "tmp", bytesOf "static"]

/-- Demo fixture: the index file contents of the test suite. -/
def demoHtml : List Nat :=
  bytesOf "<html><head></head><body><h1>Proxy.py Testing</h1></body></html>"

/-- Demo fixture: a file system holding `index.html` under the root. -/
def demoFs : FileSystem := [(demoRoot ++ [bytesOf "index.html"], demoHtml)]

/-- Demo fixture: a parsed `GET /index.html` request advertising gzip. -/
def demoReq : Request :=
  reqOf (initialParser.parse
    (bytesOf "GET /index.html HTTP/1.1\r\nAccept-Encoding: gzip\r\n\r\n"))

theorem static_web_server_serves_witness :
    staticLookup demoRoot demoFs demoReq.path =
      some (demoRoot ++ [bytesOf "index.html"], demoHtml) ∧
    advertisesGzip demoReq = true ∧
    (handleWeb ⟨none, true, demoRoot⟩ demoFs [] demoReq).code = 200 ∧
    (handleWeb ⟨none, true, demoRoot⟩ demoFs [] demoReq).header (bytesOf "content-type") =
      some (bytesOf "text/html") ∧
    gzipDecompress ((handleWeb ⟨none, true, demoRoot⟩ demoFs [] demoReq).body.getD []) =
      demoHtml := by
  have h := static_web_server_serves demoRoot demoFs [] demoReq
    (demoRoot ++ [bytesOf "index.html"]) demoHtml (by decide)
  exact ⟨by decide, by decide, h.1, h.2.2.1 (by decide), h.2.2.2.2.2.2 (by decide)⟩

/-- Demo fixture: a parsed request for a file the demo root lacks. -/
def reqMissing : Request :=
  reqOf (initialParser.parse (bytesOf "GET /not-found.html HTTP/1.1\r\n\r\n"))

/-- Demo fixture: a parsed request for a path no route serves. -/
def reqHello : Request :=
  reqOf (initialParser.parse (bytesOf "GET /hello HTTP/1.1\r\n\r\n"))

/-- C6: Path safety of the static route.  For any request path, either
the resolved absolute file path still has the (canonical, dot-free)
static root as a prefix after canonicalising the resolved path, or the
static lookup fails and the request falls through to the default 404:
no request is ever served a file outside the static root. -/
theorem static_web_server_path_safety (root : List (List Nat)) (fs : FileSystem)
    (req : Request) (hroot : noDots root = true) :
    (∀ rp contents, staticLookup root fs req.path = some (rp, contents) →
      canonSegs root <+: canonSegs rp) ∧
    (staticLookup root fs req.path = none →
      handleWeb ⟨none, true, root⟩ fs [] req = default404Response) := by
  constructor
  · intro rp contents h
    simp only [staticLookup, resolveStatic] at h
    cases hdd : hasDotDot (expandIndex (reqSegs req.path)) with
    | true => rw [hdd] at h; simp at h
    | false =>
      rw [hdd] at h
      simp at h
      cases hfl : fsLookup fs (root ++ expandIndex (reqSegs req.path)) with
      | none => rw [hfl] at h; simp at h
      | some c =>
        rw [hfl] at h
        simp at h
        rw [← h.1]
        have hc : canonSegs root = root := foldl_canonStep_clean root hroot []
        unfold canonSegs
        rw [List.foldl_append]
        show canonSegs root <+: List.foldl canonStep (canonSegs root) _
        rw [hc]
        exact foldl_canonStep_keeps _ hdd root
  · intro h
    unfold handleWeb handleWebStatic routeOr404
    simp [h, matchRoute]

theorem static_web_server_path_safety_witness :
    canonSegs demoRoot <+: canonSegs (demoRoot ++ [bytesOf "index.html"]) ∧
    handleWeb ⟨none, true, demoRoot⟩ demoFs [] reqMissing = default404Response := by
  have h1 := (static_web_server_path_safety demoRoot demoFs demoReq (by decide)).1
    (demoRoot ++ [bytesOf "index.html"]) demoHtml (by decide)
  have h2 := (static_web_server_path_safety demoRoot demoFs reqMissing (by decide)).2
    (by decide)
  exact ⟨h1, h2⟩

/-- The exact condition under which the web routing falls through to
the default 404: the PAC route does not match, the static route (when
enabled) resolves no file, and no registered route prefix matches. -/
def fallsTo404 (flags : WebFlags) (fs : FileSystem) (routes : RouteTable)
    (req : Request) : Bool :=
  (match flags.pacFile with
   | some _ => decide (req.path ≠ bytesOf "/")
   | none => true) &&
  (!flags.staticEnabled || (staticLookup flags.staticDir fs req.path).isNone) &&
  (matchRoute routes req.path).isNone

theorem handleWeb_of_fallsTo404 (flags : WebFlags) (fs : FileSystem)
    (routes : RouteTable) (req : Request)
    (h : fallsTo404 flags fs routes req = true) :
    handleWeb flags fs routes req = default404Response := by
  unfold fallsTo404 at h
  simp [Bool.and_eq_true] at h
  obtain ⟨⟨hpac, hstat⟩, hroute⟩ := h
  have hstatic : handleWebStatic flags fs routes req = default404Response := by
    unfold handleWebStatic routeOr404
    cases hmr : matchRoute routes req.path with
    | some r => rw [hmr] at hroute; simp at hroute
    | none =>
      cases hse : flags.staticEnabled with
      | false => simp
      | true =>
        rw [hse] at hstat
        simp at hstat
        cases hsl : staticLookup flags.staticDir fs req.path with
        | some v => rw [hsl] at hstat; simp at hstat
        | none => simp [hmr]
  unfold handleWeb
  cases hfl : flags.pacFile with
  | some pac =>
    rw [hfl] at hpac
    simp at hpac
    show (if req.path = bytesOf "/" then pacResponse pac
      else handleWebStatic flags fs routes req) = _
    rw [if_neg hpac]
    exact hstatic
  | none => exact hstatic

/-- C9: The 404 path leaks nothing.  Any two requests that fall
through to the default 404 — whether because no route matched or
because the requested static file does not exist — receive the same
constant response bytes, `HttpWebServerPlugin.DEFAULT_404_RESPONSE`,
carrying no information about the requested path. -/
theorem fallthrough_404_uniform (flags : WebFlags) (fs : FileSystem)
    (routes : RouteTable) (r1 r2 : Request)
    (h1 : fallsTo404 flags fs routes r1 = true)
    (h2 : fallsTo404 flags fs routes r2 = true) :
    emitResponse (handleWeb flags fs routes r1) =
      emitResponse (handleWeb flags fs routes r2) ∧
    emitResponse (handleWeb flags fs routes r1) = DEFAULT_404_RESPONSE := by
  rw [handleWeb_of_fallsTo404 flags fs routes r1 h1,
      handleWeb_of_fallsTo404 flags fs routes r2 h2]
  exact ⟨rfl, rfl⟩

theorem fallthrough_404_uniform_witness :
    emitResponse (handleWeb ⟨none, true, demoRoot⟩ demoFs [] reqHello) =
      emitResponse (handleWeb ⟨none, true, demoRoot⟩ demoFs [] reqMissing) ∧
    emitResponse (handleWeb ⟨none, true, demoRoot⟩ demoFs [] reqHello) =
      DEFAULT_404_RESPONSE :=
  fallthrough_404_uniform ⟨none, true, demoRoot⟩ demoFs [] reqHello reqMissing
    (by decide) (by decide)

/-- Demo fixture: a parsed `GET /index.html` request built with no
Accept-Encoding header at all (built by the test suite with method GET, path `/index.html` and no headers). -/
def reqNoAE : Request :=
  reqOf (initialParser.parse (bytesOf "GET /index.html HTTP/1.1\r\n\r\n"))

/-- C8: The static route gzip-encodes unconditionally.  For the
`GET /index.html` request built without any Accept-Encoding header,
the response nevertheless carries `content-encoding: gzip`, its body is
the gzip encoding of the file, and `content-length` equals the gzipped
length. -/
theorem static_serves_gzip_without_accept_encoding (root : List (List Nat))
    (fs : FileSystem) (rp : List (List Nat)) (contents : List Nat)
    (hlook : staticLookup root fs (bytesOf "/index.html") = some (rp, contents)) :
    advertisesGzip reqNoAE = false ∧
    (handleWeb ⟨none, true, root⟩ fs [] reqNoAE).header (bytesOf "content-encoding") =
      some (bytesOf "gzip") ∧
    (handleWeb ⟨none, true, root⟩ fs [] reqNoAE).body = some (gzipCompress contents) ∧
    (handleWeb ⟨none, true, root⟩ fs [] reqNoAE).header (bytesOf "content-length") =
      some (natBytes (gzipCompress contents).length) := by
  have hp : reqNoAE.path = bytesOf "/index.html" := by decide
  have hw : handleWeb ⟨none, true, root⟩ fs [] reqNoAE = okFileResponse rp contents := by
    unfold handleWeb handleWebStatic
    rw [hp, hlook]
    rfl
  rw [hw]
  exact ⟨by decide, rfl, rfl, rfl⟩

theorem static_serves_gzip_without_accept_encoding_witness :
    advertisesGzip reqNoAE = false ∧
    (handleWeb ⟨none, true, demoRoot⟩ demoFs [] reqNoAE).header
        (bytesOf "content-encoding") = some (bytesOf "gzip") ∧
    (handleWeb ⟨none, true, demoRoot⟩ demoFs [] reqNoAE).body =
      some (gzipCompress demoHtml) ∧
    (handleWeb ⟨none, true, demoRoot⟩ demoFs [] reqNoAE).header
        (bytesOf "content-length") = some (natBytes (gzipCompress demoHtml).length) :=
  static_serves_gzip_without_accept_encoding demoRoot demoFs
    (demoRoot ++ [bytesOf "index.html"]) demoHtml (by decide)

/-! ## The upstream connection pool (spec §3 "Upstream pool entry", §4.3)

Modelled from the spec: the `proxy/core/connection/pool.py` module of the repository
(`ConnectionPool`) is not under the source tree — the
snapshot only re-exports the class from
`proxy/core/connection/__init__.py`.  The model follows the spec: keys
are (host, port, tls); `acquire` returns an idle connection for the key
if any (removing it from the idle set), else opens a fresh one;
`release` re-inserts the connection if it is still open and the idle
set for its key is below the per-key cap `pool_max_per_key`, else
closes it. -/

/-- A pool key: (host, port, tls). -/
def PoolKey : Type := List Nat × Nat × Bool

instance : DecidableEq PoolKey := by
  unfold PoolKey
  infer_instance

/-- An upstream connection as the pool tracks it. -/
structure PoolConn where
  connId : Nat
  key : PoolKey
  isOpen : Bool
deriving DecidableEq

/-- The pool state: the idle set, a fresh-id source, and the ids of
connections the pool has closed. -/
structure PoolState where
  idle : List PoolConn
  nextId : Nat
  closedIds : List Nat
deriving DecidableEq

/-- The idle connections held for one key. -/
def idleFor (st : PoolState) (k : PoolKey) : List PoolConn :=
  st.idle.filter (fun c => c.key = k)

/-- The empty pool. -/
def emptyPool : PoolState := ⟨[], 0, []⟩

/-- The model of `acquire(host, port, tls)`: hand out an idle connection for the key
if one exists — removing it from the idle set — else open a new one. -/
def acquire (st : PoolState) (k : PoolKey) : PoolState × PoolConn :=
  match st.idle.find? (fun c => c.key = k) with
  | some c => ({ st with idle := st.idle.erase c }, c)
  | none => ({ st with nextId := st.nextId + 1 }, ⟨st.nextId, k, true⟩)

/-- The model of `release(conn)`: re-insert the connection if it is still open and
the idle set for its key is below the cap, else close it. -/
def release (cap : Nat) (st : PoolState) (c : PoolConn) : PoolState :=
  if c.isOpen = true ∧ (idleFor st c.key).length < cap then
    { st with idle := st.idle ++ [c] }
  else
    { st with closedIds := st.closedIds ++ [c.connId] }

/-- One client interaction with the pool. -/
inductive PoolOp where
  | acq (k : PoolKey)
  | rel (c : PoolConn)

/-- Apply one pool operation to the state. -/
def applyPoolOp (cap : Nat) (st : PoolState) : PoolOp → PoolState
  | PoolOp.acq k => (acquire st k).1
  | PoolOp.rel c => release cap st c

/-- Run a sequence of acquire and release operations. -/
def runPoolOps (cap : Nat) (st : PoolState) : List PoolOp → PoolState
  | [] => st
  | op :: rest => runPoolOps cap (applyPoolOp cap st op) rest

theorem idleFor_erase_le (st : PoolState) (c : PoolConn) (k : PoolKey) :
    ((st.idle.erase c).filter (fun x => x.key = k)).length ≤
      (idleFor st k).length := by
  unfold idleFor
  exact ((st.idle.erase_sublist c).filter _).length_le

theorem pool_cap_preserved (cap : Nat) (st : PoolState)
    (hInv : ∀ k, (idleFor st k).length ≤ cap) (op : PoolOp) :
    ∀ k, (idleFor (applyPoolOp cap st op) k).length ≤ cap := by
  intro k
  cases op with
  | acq k0 =>
    show (idleFor (acquire st k0).1 k).length ≤ cap
    cases hf : st.idle.find? (fun c => c.key = k0) with
    | some c =>
      have heq : (acquire st k0).1 = { st with idle := st.idle.erase c } := by
        unfold acquire; rw [hf]
      rw [heq]
      exact le_trans (idleFor_erase_le st c k) (hInv k)
    | none =>
      have heq : (acquire st k0).1 = { st with nextId := st.nextId + 1 } := by
        unfold acquire; rw [hf]
      rw [heq]
      exact hInv k
  | rel c =>
    show (idleFor (release cap st c) k).length ≤ cap
    unfold release
    by_cases hc : c.isOpen = true ∧ (idleFor st c.key).length < cap
    · rw [if_pos hc]
      show ((st.idle ++ [c]).filter (fun x => x.key = k)).length ≤ cap
      rw [List.filter_append]
      by_cases hk : c.key = k
      · have h1 := hc.2
        rw [hk] at h1
        simp [hk]
        unfold idleFor at h1
        omega
      · simp [hk]
        exact hInv k
    · rw [if_neg hc]
      exact hInv k

theorem pool_cap_run (cap : Nat) (ops : List PoolOp) :
    ∀ st : PoolState, (∀ k, (idleFor st k).length ≤ cap) →
      ∀ k, (idleFor (runPoolOps cap st ops) k).length ≤ cap := by
  induction ops with
  | nil => intro st h k; exact h k
  | cons op rest ih =>
    intro st h k
    exact ih (applyPoolOp cap st op) (pool_cap_preserved cap st h op) k

/-- C7: Pool cap and hand-out discipline.  Starting from the empty
pool, after any sequence of acquire and release operations the number
of connections held idle for any key is at most `pool_max_per_key`;
an acquire that finds an idle connection hands exactly it out and
removes it from the idle set (strictly shrinking the idle set); and a
release re-inserts the connection into the idle set when it is still
open and the idle set for its key is below the cap, and otherwise
closes it. -/
theorem connection_pool_invariant (cap : Nat) (ops : List PoolOp) (k : PoolKey) :
    (idleFor (runPoolOps cap emptyPool ops) k).length ≤ cap ∧
    (∀ st : PoolState, ∀ c : PoolConn,
      st.idle.find? (fun x => x.key = k) = some c →
        (acquire st k).2 = c ∧
        (acquire st k).1.idle = st.idle.erase c ∧
        (acquire st k).1.idle.length < st.idle.length) ∧
    (∀ st : PoolState, ∀ c : PoolConn,
      (c.isOpen = true ∧ (idleFor st c.key).length < cap →
        c ∈ (release cap st c).idle) ∧
      (¬(c.isOpen = true ∧ (idleFor st c.key).length < cap) →
        c.connId ∈ (release cap st c).closedIds)) := by
  refine ⟨?_, ?_, ?_⟩
  · exact pool_cap_run cap ops emptyPool (fun _ => by simp [emptyPool, idleFor]) k
  · intro st c hf
    have hmem : c ∈ st.idle := List.mem_of_find?_eq_some hf
    unfold acquire
    rw [hf]
    refine ⟨rfl, rfl, ?_⟩
    show (st.idle.erase c).length < st.idle.length
    rw [List.length_erase_of_mem hmem]
    have : 0 < st.idle.length := List.length_pos.mpr (List.ne_nil_of_mem hmem)
    omega
  · intro st c
    constructor
    · intro hc
      unfold release
      rw [if_pos hc]
      simp
    · intro hc
      unfold release
      rw [if_neg hc]
      simp

theorem connection_pool_invariant_witness :
    (idleFor
        (runPoolOps 1 emptyPool
          [PoolOp.acq ([104], 80, false),
           PoolOp.rel ⟨0, ([104], 80, false), true⟩,
           PoolOp.rel ⟨7, ([104], 80, false), true⟩,
           PoolOp.acq ([104], 80, false)])
        ([104], 80, false)).length ≤ 1 ∧
    (idleFor
        (runPoolOps 1 emptyPool
          [PoolOp.acq ([104], 80, false),
           PoolOp.rel ⟨0, ([104], 80, false), true⟩,
           PoolOp.rel ⟨7, ([104], 80, false), true⟩])
        ([104], 80, false)).length = 1 := by
  have h := (connection_pool_invariant 1
    [PoolOp.acq ([104], 80, false),
     PoolOp.rel ⟨0, ([104], 80, false), true⟩,
     PoolOp.rel ⟨7, ([104], 80, false), true⟩,
     PoolOp.acq ([104], 80, false)] ([104], 80, false)).1
  exact ⟨h, by decide⟩

/-! ## The protocol handler lifecycle (spec §4.5, §5)

Modelled from the spec: the `proxy/http/handler.py` module of the repository
(`HttpProtocolHandler`) is not under the source tree — only
its use in the web-server test is.  The model follows the spec and the
observations of the tests: `initialize()` constructs one instance of every
plugin factory in the registry before any client bytes are read; the
run loop executes `_run_once()` ticks until one reports completion or
raises; and teardown — reached from both outcomes — closes the client
socket and invokes `on_client_connection_close()` of each plugin
exactly once. -/

/-- The outcome of one `_run_once()` tick. -/
inductive TickOutcome where
  | cont
  | done
  | err
deriving DecidableEq

/-- One loop tick: how many client bytes it read, and its outcome. -/
structure Tick where
  bytes : Nat
  outcome : TickOutcome

/-- Observable handler state: the constructed plugin instances (by
factory), total client bytes read, per-plugin count of
`on_client_connection_close` invocations, and the socket close latch. -/
structure HandlerState where
  instances : List Nat
  bytesRead : Nat
  closeCalls : List Nat
  socketClosed : Bool
deriving DecidableEq

/-- The model of `initialize()`: construct one instance per registered plugin
factory, before any bytes are read. -/
def initializeHandler (registry : List Nat) : HandlerState :=
  ⟨registry, 0, registry.map (fun _ => 0), false⟩

/-- The effect of one `_run_once()` tick on the observable state. -/
def applyTick (st : HandlerState) (t : Tick) : HandlerState :=
  { st with bytesRead := st.bytesRead + t.bytes }

/-- The run loop: tick until a tick reports done or raises.  `none`
means the scripted ticks ran out with the loop still running. -/
def loopRun (st : HandlerState) : List Tick → Option HandlerState
  | [] => none
  | t :: rest =>
    match t.outcome with
    | TickOutcome.cont => loopRun (applyTick st t) rest
    | _ => some (applyTick st t)

/-- Teardown: close the client socket and invoke `on_client_connection_close()`
of every plugin. -/
def shutdownHandler (st : HandlerState) : HandlerState :=
  { st with socketClosed := true, closeCalls := st.closeCalls.map (fun n => n + 1) }

/-- The model of `run()`: the loop followed — on completion or on error alike — by
teardown. -/
def runHandler (registry : List Nat) (ticks : List Tick) : Option HandlerState :=
  (loopRun (initializeHandler registry) ticks).map shutdownHandler

theorem loopRun_preserves (ticks : List Tick) :
    ∀ st st' : HandlerState, loopRun st ticks = some st' →
      st'.instances = st.instances ∧ st'.closeCalls = st.closeCalls ∧
      st'.socketClosed = st.socketClosed := by
  induction ticks with
  | nil => intro st st' h; simp [loopRun] at h
  | cons t rest ih =>
    intro st st' h
    unfold loopRun at h
    cases ho : t.outcome with
    | cont =>
      rw [ho] at h
      exact ih (applyTick st t) st' h
    | done =>
      rw [ho] at h
      simp at h
      rw [← h]
      exact ⟨rfl, rfl, rfl⟩
    | err =>
      rw [ho] at h
      simp at h
      rw [← h]
      exact ⟨rfl, rfl, rfl⟩

/-- C4: Teardown invokes the plugin exactly once.  Whenever the run
loop terminates — by a tick reporting completion or by one erroring —
`on_client_connection_close` of every registered plugin has been invoked
exactly once (never zero times, never twice) and the client socket is
closed. -/
theorem on_client_connection_close_called_once (registry : List Nat)
    (ticks : List Tick) (st : HandlerState)
    (h : runHandler registry ticks = some st) :
    st.closeCalls = registry.map (fun _ => 1) ∧ st.socketClosed = true := by
  unfold runHandler at h
  cases hl : loopRun (initializeHandler registry) ticks with
  | none => rw [hl] at h; simp at h
  | some st0 =>
    rw [hl] at h
    simp at h
    have hp := loopRun_preserves ticks (initializeHandler registry) st0 hl
    rw [← h]
    constructor
    · show (shutdownHandler st0).closeCalls = _
      unfold shutdownHandler
      simp only []
      rw [hp.2.1]
      show (registry.map (fun _ => 0)).map (fun n => n + 1) = registry.map (fun _ => 1)
      rw [List.map_map]
      rfl
    · rfl

theorem on_client_connection_close_called_once_witness :
    runHandler [42] [⟨0, TickOutcome.cont⟩, ⟨3, TickOutcome.done⟩] =
      some ⟨[42], 3, [1], true⟩ ∧
    (⟨[42], 3, [1], true⟩ : HandlerState).closeCalls = [42].map (fun _ => 1) ∧
    (⟨[42], 3, [1], true⟩ : HandlerState).socketClosed = true := by
  refine ⟨by decide, ?_⟩
  exact on_client_connection_close_called_once [42]
    [⟨0, TickOutcome.cont⟩, ⟨3, TickOutcome.done⟩] ⟨[42], 3, [1], true⟩ (by decide)

/-- C10: Plugins are constructed at initialisation.  After
`initialize()` every plugin factory in the registry has been
instantiated — one instance per factory — while zero client bytes have
been read; and the run loop never changes the instance list, so the
instances constructed up front live for the whole handler lifetime
rather than being created lazily. -/
theorem plugins_constructed_on_initialization (registry : List Nat)
    (ticks : List Tick) :
    (initializeHandler registry).instances = registry ∧
    (∀ f, f ∈ registry → f ∈ (initializeHandler registry).instances) ∧
    (initializeHandler registry).bytesRead = 0 ∧
    (∀ st, loopRun (initializeHandler registry) ticks = some st →
      st.instances = registry) := by
  refine ⟨rfl, fun f hf => hf, rfl, ?_⟩
  intro st h
  exact (loopRun_preserves ticks (initializeHandler registry) st h).1

theorem plugins_constructed_on_initialization_witness :
    (initializeHandler [42, 7]).instances = [42, 7] ∧
    (42 ∈ (initializeHandler [42, 7]).instances) ∧
    (initializeHandler [42, 7]).bytesRead = 0 := by
  have h := plugins_constructed_on_initialization [42, 7] []
  exact ⟨h.1, h.2.1 42 (by decide), h.2.2.1⟩

end ProxyPy
